import Mathlib

/-!
# unistat: counting Unicode classes of a rune stream

A shallow embedding of `main.go` of `benbjohnson/unistat`.

* `Stats`, `Stat` — the accumulation loop of `Main.Stat` over an `io.RuneReader`.
* `Main`, `Reader`, `Run` — the command line shell: flag parsing, input selection,
  the scan through a `bufio.Reader`, and the report written to `Stdout`.

Conventions of the embedding.

* Go's `error` is `Option Error`: `none` is `nil`, `some Error.EOF` is the sentinel `io.EOF`.
* An `io.RuneReader` is a state type with a `ReadRune` step function. `Stat` loops until a
  read reports an error, so the loop takes a bound on the number of reads (`fuel`) and
  returns `none` when the bound is reached before the stream ends.
* Runes (`int32`) and sizes (`int`) are `Int`. The counters of `Stats` are Go `int`s that
  start at zero and are incremented at most once per read; they are naturals here,
  which is exact as long as fewer reads are made than the largest Go `int`.
* The predicates of package `unicode` are a parameter (`Unicode`); `unicode` builds Go's
  predicates from the Latin-1 `properties` table and the range tables for the runes
  above Latin-1, which are a parameter too (`RangeTables`).
-/

namespace Unistat

/-! ## Errors, statistics, classification -/

/-- Go `error` values that are not `nil`: the sentinel `io.EOF`, or any other error,
identified by its message. -/
inductive Error where
  | EOF : Error
  | msg (text : String) : Error
  deriving DecidableEq, Repr

/-- Stats represents unicode stats for a set of runes. -/
structure Stats where
  TotalN : Nat := 0
  ControlN : Nat := 0
  DigitN : Nat := 0
  GraphicN : Nat := 0
  LetterN : Nat := 0
  LowerN : Nat := 0
  MarkN : Nat := 0
  NumberN : Nat := 0
  PrintN : Nat := 0
  PunctN : Nat := 0
  SpaceN : Nat := 0
  SymbolN : Nat := 0
  TitleN : Nat := 0
  UpperN : Nat := 0
  MultiByteN : Nat := 0
  deriving DecidableEq, Repr

/-- The thirteen predicates of package `unicode` that `Stat` calls, each on a rune. -/
structure Unicode where
  IsControl : Int → Bool
  IsDigit : Int → Bool
  IsGraphic : Int → Bool
  IsLetter : Int → Bool
  IsLower : Int → Bool
  IsMark : Int → Bool
  IsNumber : Int → Bool
  IsPrint : Int → Bool
  IsPunct : Int → Bool
  IsSpace : Int → Bool
  IsSymbol : Int → Bool
  IsTitle : Int → Bool
  IsUpper : Int → Bool

/-! ## Rune readers -/

/-- What one call of `ReadRune` returns: `ch, sz, err`. -/
structure ReadResult where
  ch : Int
  sz : Int
  err : Option Error
  deriving DecidableEq, Repr

/-- An `io.RuneReader`: a state and the `ReadRune` method, which returns its result and
the reader's next state. -/
structure RuneReader (σ : Type) where
  ReadRune : σ → ReadResult × σ

namespace RuneReader

variable {σ : Type}

/-- The results of the first `n` calls of `ReadRune` made from state `s`. -/
def reads (r : RuneReader σ) : Nat → σ → List ReadResult
  | 0, _ => []
  | n + 1, s => (r.ReadRune s).1 :: reads r n (r.ReadRune s).2

/-- The reader's state after `n` calls of `ReadRune` made from state `s`. -/
def advance (r : RuneReader σ) : Nat → σ → σ
  | 0, s => s
  | n + 1, s => advance r n (r.ReadRune s).2

end RuneReader

/-- A reader over a fixed list of read results; once the list is used up every further
read reports `io.EOF`. -/
def sliceReader : RuneReader (List ReadResult) where
  ReadRune s :=
    match s with
    | [] => (⟨0, 0, some Error.EOF⟩, [])
    | x :: rest => (x, rest)

/-- A successful read of rune `ch` encoded in `sz` bytes. -/
def ok (ch sz : Int) : ReadResult := ⟨ch, sz, none⟩

/-! ## Main -/

/-- One byte. -/
abbrev Byte := Fin 256

/-- An `io.Reader` as `Run` sees it: the bytes it delivers and the error its `Read`
reports once they are used up (`io.EOF` at the regular end of a file). -/
structure ByteSource where
  data : List Byte
  err : Error := Error.EOF
  deriving DecidableEq, Repr

/-- Main represents the main program execution: its three streams, and with them the
part of the process's environment that `Run` touches.

* `Stdin` is the input that standard input has yet to deliver.
* `Stdout` and `Stderr` hold everything written to them so far.
* `Open` is the file system: what `os.Open` returns for a name.
* `opened` and `closed` record the calls of `os.Open` and of `Close` on a file.
* `stdinReads` counts the calls of `ReadRune` on the reader of `Stdin`. -/
structure Main where
  Stdin : ByteSource
  Stdout : String := ""
  Stderr : String := ""
  Open : String → Except Error ByteSource
  opened : List String := []
  closed : List String := []
  stdinReads : Nat := 0

/-! ## Stat -/

/-- Lines 118–161 of `Stat`: the updates of the counters for one rune `ch` of size `sz`. -/
def Stat.count (u : Unicode) (stats : Stats) (ch sz : Int) : Stats :=
  let stats := { stats with TotalN := stats.TotalN + 1 }
  let stats := if u.IsControl ch then { stats with ControlN := stats.ControlN + 1 } else stats
  let stats := if u.IsDigit ch then { stats with DigitN := stats.DigitN + 1 } else stats
  let stats := if u.IsGraphic ch then { stats with GraphicN := stats.GraphicN + 1 } else stats
  let stats := if u.IsLetter ch then { stats with LetterN := stats.LetterN + 1 } else stats
  let stats := if u.IsLower ch then { stats with LowerN := stats.LowerN + 1 } else stats
  let stats := if u.IsMark ch then { stats with MarkN := stats.MarkN + 1 } else stats
  let stats := if u.IsNumber ch then { stats with NumberN := stats.NumberN + 1 } else stats
  let stats := if u.IsPrint ch then { stats with PrintN := stats.PrintN + 1 } else stats
  let stats := if u.IsPunct ch then { stats with PunctN := stats.PunctN + 1 } else stats
  let stats := if u.IsSpace ch then { stats with SpaceN := stats.SpaceN + 1 } else stats
  let stats := if u.IsSymbol ch then { stats with SymbolN := stats.SymbolN + 1 } else stats
  let stats := if u.IsTitle ch then { stats with TitleN := stats.TitleN + 1 } else stats
  let stats := if u.IsUpper ch then { stats with UpperN := stats.UpperN + 1 } else stats
  let stats := if sz > 1 then { stats with MultiByteN := stats.MultiByteN + 1 } else stats
  stats

/-- What `Stat` returns, together with the state the reader is left in. -/
structure StatResult (σ : Type) where
  stats : Stats
  err : Option Error
  reader : σ

/-- The `for` loop of `Stat`, from reader state `s` with the counters `stats`, making at
most `fuel` reads. -/
def Stat.loop {σ : Type} (u : Unicode) (r : RuneReader σ) :
    Nat → σ → Stats → Option (StatResult σ)
  | 0, _, _ => none
  | fuel + 1, s, stats =>
    -- Read next character.
    match r.ReadRune s with
    | (⟨_, _, some Error.EOF⟩, s') => some ⟨stats, none, s'⟩
    | (⟨_, _, some err⟩, s') => some ⟨stats, some err, s'⟩
    | (⟨ch, sz, none⟩, s') => Stat.loop u r fuel s' (Stat.count u stats ch sz)

/-- Stat calculates statistics for all runes read from r. The receiver `m` is not used. -/
def Stat {σ : Type} (_m : Main) (u : Unicode) (r : RuneReader σ) (fuel : Nat) (s : σ) :
    Option (StatResult σ) :=
  Stat.loop u r fuel s {}


/-! ## Package `unicode`

Go's predicates look runes up to `MaxLatin1` up in the table `properties` and the
others in range tables. The range tables are a parameter. -/

namespace unicode

def MaxLatin1 : Int := 0xFF

/-- The property bits of the table `properties`. -/
def pC : Nat := 1    -- a control character.
def pP : Nat := 2    -- a punctuation character.
def pN : Nat := 4    -- a numeral.
def pS : Nat := 8    -- a symbolic character.
def pZ : Nat := 16   -- a spacing character.
def pLu : Nat := 32  -- an upper-case letter.
def pLl : Nat := 64  -- a lower-case letter.
def pp : Nat := 128  -- a printable character according to Go's definition.
def pg : Nat := pp ||| pZ   -- a graphical character according to the Unicode definition.
def pLo : Nat := pLl ||| pLu  -- a letter that is neither upper nor lower case.
def pLmask : Nat := pLo

/-- The table `properties` of package `unicode`, for the code points `0 .. 0xFF`. -/
def properties (c : Nat) : Nat :=
  if c < 0x20 then pC
  else if c = 0x20 then pZ ||| pp
  else if c < 0x24 then pP ||| pp   -- ! " #
  else if c = 0x24 then pS ||| pp   -- $
  else if c < 0x2B then pP ||| pp   -- % & ' ( ) *
  else if c = 0x2B then pS ||| pp   -- +
  else if c < 0x30 then pP ||| pp   -- , - . /
  else if c < 0x3A then pN ||| pp   -- 0 .. 9
  else if c < 0x3C then pP ||| pp   -- : ;
  else if c < 0x3F then pS ||| pp   -- < = >
  else if c < 0x41 then pP ||| pp   -- ? @
  else if c < 0x5B then pLu ||| pp  -- A .. Z
  else if c < 0x5E then pP ||| pp   -- [ \ ]
  else if c = 0x5E then pS ||| pp   -- ^
  else if c = 0x5F then pP ||| pp   -- _
  else if c = 0x60 then pS ||| pp   -- grave accent
  else if c < 0x7B then pLl ||| pp  -- a .. z
  else if c = 0x7B then pP ||| pp   -- opening brace
  else if c = 0x7C then pS ||| pp   -- |
  else if c = 0x7D then pP ||| pp   -- closing brace
  else if c = 0x7E then pS ||| pp   -- ~
  else if c < 0xA0 then pC          -- DEL and the C1 controls
  else if c = 0xA0 then pZ          -- no-break space
  else if c = 0xA1 then pP ||| pp
  else if c < 0xA7 then pS ||| pp
  else if c = 0xA7 then pP ||| pp
  else if c < 0xAA then pS ||| pp
  else if c = 0xAA then pLo ||| pp
  else if c = 0xAB then pP ||| pp
  else if c = 0xAC then pS ||| pp
  else if c = 0xAD then 0           -- soft hyphen
  else if c < 0xB2 then pS ||| pp
  else if c < 0xB4 then pN ||| pp
  else if c = 0xB4 then pS ||| pp
  else if c = 0xB5 then pLl ||| pp
  else if c < 0xB8 then pP ||| pp
  else if c = 0xB8 then pS ||| pp
  else if c = 0xB9 then pN ||| pp
  else if c = 0xBA then pLo ||| pp
  else if c = 0xBB then pP ||| pp
  else if c < 0xBF then pN ||| pp
  else if c = 0xBF then pP ||| pp
  else if c < 0xD7 then pLu ||| pp
  else if c = 0xD7 then pS ||| pp
  else if c < 0xDF then pLu ||| pp
  else if c < 0xF7 then pLl ||| pp
  else if c = 0xF7 then pS ||| pp
  else pLl ||| pp

/-- Membership of a rune that is not in Latin-1 in the range tables of package
`unicode` that the predicates consult. -/
structure RangeTables where
  Digit : Int → Bool
  Letter : Int → Bool
  Lower : Int → Bool
  Mark : Int → Bool
  Number : Int → Bool
  Punct : Int → Bool
  Symbol : Int → Bool
  Title : Int → Bool
  Upper : Int → Bool
  White_Space : Int → Bool
  Zs : Int → Bool

/-- The test `uint32(r) <= MaxLatin1`. -/
def latin1 (r : Int) : Bool := decide (0 ≤ r) && decide (r ≤ MaxLatin1)

def IsControl (r : Int) : Bool :=
  if latin1 r then properties r.toNat &&& pC != 0
  else false  -- All control characters are < MaxLatin1.

def IsDigit (t : RangeTables) (r : Int) : Bool :=
  if r ≤ MaxLatin1 then decide (0x30 ≤ r) && decide (r ≤ 0x39)
  else t.Digit r

/-- The test of `In(r, GraphicRanges...)`, with `GraphicRanges = L, M, N, P, S, Zs`. -/
def IsGraphic (t : RangeTables) (r : Int) : Bool :=
  if latin1 r then properties r.toNat &&& pg != 0
  else t.Letter r || t.Mark r || t.Number r || t.Punct r || t.Symbol r || t.Zs r

def IsLetter (t : RangeTables) (r : Int) : Bool :=
  if latin1 r then properties r.toNat &&& pLmask != 0
  else t.Letter r

def IsLower (t : RangeTables) (r : Int) : Bool :=
  if latin1 r then properties r.toNat &&& pLmask == pLl
  else t.Lower r

/-- Go calls `isExcludingLatin(Mark, r)` for every rune. "There are no mark characters
in Latin-1": the table `Mark` starts at U+0300, so the lookup of a Latin-1 rune finds
nothing. -/
def IsMark (t : RangeTables) (r : Int) : Bool :=
  if latin1 r then false
  else t.Mark r

def IsNumber (t : RangeTables) (r : Int) : Bool :=
  if latin1 r then properties r.toNat &&& pN != 0
  else t.Number r

/-- The test of `In(r, PrintRanges...)`, with `PrintRanges = L, M, N, P, S`. -/
def IsPrint (t : RangeTables) (r : Int) : Bool :=
  if latin1 r then properties r.toNat &&& pp != 0
  else t.Letter r || t.Mark r || t.Number r || t.Punct r || t.Symbol r

def IsPunct (t : RangeTables) (r : Int) : Bool :=
  if latin1 r then properties r.toNat &&& pP != 0
  else t.Punct r

def IsSpace (t : RangeTables) (r : Int) : Bool :=
  if latin1 r then
    r == 0x09 || r == 0x0A || r == 0x0B || r == 0x0C || r == 0x0D || r == 0x20
      || r == 0x85 || r == 0xA0
  else t.White_Space r

def IsSymbol (t : RangeTables) (r : Int) : Bool :=
  if latin1 r then properties r.toNat &&& pS != 0
  else t.Symbol r

def IsTitle (t : RangeTables) (r : Int) : Bool :=
  if r ≤ MaxLatin1 then false
  else t.Title r

def IsUpper (t : RangeTables) (r : Int) : Bool :=
  if latin1 r then properties r.toNat &&& pLmask == pLu
  else t.Upper r

end unicode

/-- Go's package `unicode` over the range tables `t`. -/
def unicode (t : unicode.RangeTables) : Unicode where
  IsControl := unicode.IsControl
  IsDigit := unicode.IsDigit t
  IsGraphic := unicode.IsGraphic t
  IsLetter := unicode.IsLetter t
  IsLower := unicode.IsLower t
  IsMark := unicode.IsMark t
  IsNumber := unicode.IsNumber t
  IsPrint := unicode.IsPrint t
  IsPunct := unicode.IsPunct t
  IsSpace := unicode.IsSpace t
  IsSymbol := unicode.IsSymbol t
  IsTitle := unicode.IsTitle t
  IsUpper := unicode.IsUpper t

/-- A few rows of the Unicode range tables above Latin-1, enough to run the
definitions on examples: U+0301 (Mn), U+03A9 (Lu), U+03C9 (Ll), U+01C5 (Lt),
U+0660 (Nd), U+2160 (Nl), U+2014 (Pd), U+20AC (Sc), U+2003 (Zs), U+4E2D (Lo) and
U+FFFD (So). -/
def excerptTables : unicode.RangeTables where
  Digit r := r == 0x0660
  Letter r := r == 0x03A9 || r == 0x03C9 || r == 0x01C5 || r == 0x4E2D
  Lower r := r == 0x03C9
  Mark r := r == 0x0301
  Number r := r == 0x0660 || r == 0x2160
  Punct r := r == 0x2014
  Symbol r := r == 0x20AC || r == 0xFFFD
  Title r := r == 0x01C5
  Upper r := r == 0x03A9
  White_Space r := r == 0x2003
  Zs r := r == 0x2003

/-! ## Package `unicode/utf8` and `bufio.Reader` -/

namespace utf8

def RuneError : Int := 0xFFFD

/-- The table `first`: information about the first byte of a UTF-8 sequence. `0xF0` is
ASCII, `0xF1` an illegal first byte; otherwise the low bits are the sequence's length
and the high bits select the range accepted for the second byte. -/
def first (b : Nat) : Nat :=
  if b < 0x80 then 0xF0
  else if b < 0xC2 then 0xF1
  else if b < 0xE0 then 0x02
  else if b = 0xE0 then 0x13
  else if b < 0xED then 0x03
  else if b = 0xED then 0x23
  else if b < 0xF0 then 0x03
  else if b = 0xF0 then 0x34
  else if b < 0xF4 then 0x04
  else if b = 0xF4 then 0x44
  else 0xF1

/-- The table `acceptRanges`: lowest and highest second byte accepted. -/
def acceptRanges (i : Nat) : Nat × Nat :=
  match i with
  | 1 => (0xA0, 0xBF)
  | 2 => (0x80, 0x9F)
  | 3 => (0x90, 0xBF)
  | 4 => (0x80, 0x8F)
  | _ => (0x80, 0xBF)

/-- Whether `b` is a continuation byte, `locb <= b <= hicb`. -/
def cont (b : Nat) : Bool := decide (0x80 ≤ b) && decide (b ≤ 0xBF)

/-- The function `utf8.DecodeRune`: the first rune of `p` and its width in bytes; an
invalid encoding gives `(RuneError, 1)`, an empty `p` gives `(RuneError, 0)`. -/
def DecodeRune (p : List Byte) : Int × Int :=
  match p with
  | [] => (RuneError, 0)
  | p0 :: rest =>
    let x := first p0.val
    if x ≥ 0xF0 then
      (if x = 0xF0 then (p0.val : Int) else RuneError, 1)
    else
      let sz := x % 8
      let accept := acceptRanges (x / 16)
      if p.length < sz then (RuneError, 1)
      else
        match rest with
        | [] => (RuneError, 1)
        | b1 :: rest =>
          if b1.val < accept.1 ∨ accept.2 < b1.val then (RuneError, 1)
          else if sz ≤ 2 then
            ((((p0.val &&& 0x1F) <<< 6 ||| (b1.val &&& 0x3F) : Nat) : Int), 2)
          else
            match rest with
            | [] => (RuneError, 1)
            | b2 :: rest =>
              if !cont b2.val then (RuneError, 1)
              else if sz ≤ 3 then
                ((((p0.val &&& 0x0F) <<< 12 ||| (b1.val &&& 0x3F) <<< 6
                    ||| (b2.val &&& 0x3F) : Nat) : Int), 3)
              else
                match rest with
                | [] => (RuneError, 1)
                | b3 :: _ =>
                  if !cont b3.val then (RuneError, 1)
                  else
                    ((((p0.val &&& 0x07) <<< 18 ||| (b1.val &&& 0x3F) <<< 12
                        ||| (b2.val &&& 0x3F) <<< 6 ||| (b3.val &&& 0x3F) : Nat) : Int), 4)

end utf8

namespace bufio

/-- A `bufio.Reader`: the bytes its source has yet to deliver to `ReadRune`, and the
number of calls of `ReadRune` made so far. -/
structure Reader where
  src : ByteSource
  calls : Nat := 0
  deriving DecidableEq, Repr

/-- The function `bufio.NewReader`. -/
def NewReader (rd : ByteSource) : Reader := { src := rd }

/-- The method `(*bufio.Reader).ReadRune`: with no byte left it reports the source's
error; otherwise it decodes one rune, and "if the encoded rune is invalid, it consumes
one byte and returns unicode.ReplacementChar (U+FFFD) with a size of 1". -/
def ReadRune (b : Reader) : ReadResult × Reader :=
  match b.src.data with
  | [] => (⟨0, 0, some b.src.err⟩, { b with calls := b.calls + 1 })
  | p0 :: rest =>
    if p0.val < 0x80 then
      (⟨p0.val, 1, none⟩, { src := { b.src with data := rest }, calls := b.calls + 1 })
    else
      let d := utf8.DecodeRune (p0 :: rest)
      (⟨d.1, d.2, none⟩,
        { src := { b.src with data := (p0 :: rest).drop d.2.toNat }, calls := b.calls + 1 })

end bufio

/-- A `*bufio.Reader` as an `io.RuneReader`. -/
def bufioReader : RuneReader bufio.Reader where
  ReadRune := bufio.ReadRune

/-! ## Package `flag`, for a flag set that defines no flag -/

namespace flag

/-- The error `flag.ErrHelp`. -/
def ErrHelp : Error := Error.msg "flag: help requested"

/-- The default usage message of the flag set named `unistat`; it lists no flag. -/
def usage : String := "Usage of unistat:\n"

/-- What `Parse` leaves behind: the error it returns, the remaining (positional)
arguments `f.args`, and the text it wrote to the flag set's output. -/
structure Parsed where
  err : Option Error
  args : List String
  output : String
  deriving DecidableEq, Repr

/-- The method `failf`: reports the message on the output, followed by the usage. -/
def failf (text : String) (args : List String) : Parsed :=
  ⟨some (Error.msg text), args, text ++ "\n" ++ usage⟩

/-- The method `(*FlagSet).Parse` under `ContinueOnError`, for a flag set without flags.
`parseOne` stops at the first argument that is not of the form `-x...`; `--` ends the
flags and is dropped; anything else that starts with `-` would be a flag, and since
none is defined it is an error (`-h` and `-help` ask for the usage). -/
def Parse (arguments : List String) : Parsed :=
  match arguments with
  | [] => ⟨none, [], ""⟩
  | s :: rest =>
    match s.data with
    | '-' :: c :: cs =>
      if c = '-' ∧ cs = [] then ⟨none, rest, ""⟩  -- "--" terminates the flags
      else
        let name := if c = '-' then cs else c :: cs
        match name with
        | [] => failf ("bad flag syntax: " ++ s) arguments
        | n0 :: ns =>
          if n0 = '-' ∨ n0 = '=' then failf ("bad flag syntax: " ++ s) arguments
          else
            let name := String.mk (n0 :: ns.takeWhile (fun x => x != '='))
            if name = "help" ∨ name = "h" then ⟨some ErrHelp, rest, usage⟩
            else failf ("flag provided but not defined: -" ++ name) rest
    | _ => ⟨none, arguments, ""⟩  -- len(s) < 2 || s[0] != '-'

/-- The method `(*FlagSet).Arg`: the i'th remaining argument, or the empty string. -/
def Arg (args : List String) (i : Nat) : String := args.getD i ""

end flag

/-! ## Package `fmt` -/

namespace fmt

/-- The verb `%-10s`: the string, then spaces up to a width of `wid` runes. -/
def padRight (wid : Nat) (s : String) : String :=
  s ++ String.mk (List.replicate (wid - s.length) ' ')

/-- The call `fmt.Sprintf("%-10s %d\n", label, n)`. -/
def Sprintf (label : String) (n : Nat) : String :=
  padRight 10 label ++ " " ++ toString n ++ "\n"

/-- The call `fmt.Sprintln(s)`. -/
def Sprintln (s : String) : String := s ++ "\n"

end fmt

/-! ## Reader and Run -/

/-- The `io.ReadCloser` that `Reader` returns: `m.Stdin` behind a `NopCloser`, or the
file opened under a name. -/
inductive Handle where
  | stdin : Handle
  | file (name : String) : Handle
  deriving DecidableEq, Repr

/-- What `Reader` returns: the handle and the bytes behind it, or the error. -/
structure Opened where
  handle : Handle
  src : ByteSource
  deriving DecidableEq, Repr

/-- Reader returns a file handle if filename is specified. Otherwise returns stdin.
The reader must be closed by the caller. -/
def Reader (m : Main) (filename : String) : Except Error Opened × Main :=
  -- Use stdin if there's no file specified.
  if filename = "" then
    (.ok ⟨Handle.stdin, m.Stdin⟩,
      { m with Stderr := m.Stderr ++ fmt.Sprintln "reading from stdin\n" })
  else
    -- Otherwise open the file.
    let m := { m with opened := m.opened ++ [filename] }
    match m.Open filename with
    | .error err => (.error err, m)
    | .ok f => (.ok ⟨Handle.file filename, f⟩, m)

/-- The text that `Run` prints for `stats`. -/
def report (stats : Stats) : String :=
  fmt.Sprintf "Control:" stats.ControlN
    ++ fmt.Sprintf "Digit:" stats.DigitN
    ++ fmt.Sprintf "Graphic:" stats.GraphicN
    ++ fmt.Sprintf "Letter:" stats.LetterN
    ++ fmt.Sprintf "Lower:" stats.LowerN
    ++ fmt.Sprintf "Mark:" stats.MarkN
    ++ fmt.Sprintf "Number:" stats.NumberN
    ++ fmt.Sprintf "Print:" stats.PrintN
    ++ fmt.Sprintf "Punct:" stats.PunctN
    ++ fmt.Sprintf "Space:" stats.SpaceN
    ++ fmt.Sprintf "Symbol:" stats.SymbolN
    ++ fmt.Sprintf "Title:" stats.TitleN
    ++ fmt.Sprintf "Upper:" stats.UpperN
    ++ fmt.Sprintln ""
    ++ fmt.Sprintf "Multibyte:" stats.MultiByteN
    ++ fmt.Sprintln ""
    ++ fmt.Sprintf "Total:" stats.TotalN
    ++ fmt.Sprintln ""

/-- The deferred `r.Close()`, and the state the scan left the input in: a file is
closed; standard input keeps what was not read. -/
def release (m : Main) (h : Handle) (b : bufio.Reader) : Main :=
  match h with
  | Handle.stdin => { m with Stdin := b.src, stdinReads := m.stdinReads + b.calls }
  | Handle.file name => { m with closed := m.closed ++ [name] }

/-- Run executes the program. The result is the error returned and the state of `m`
afterwards; it is `none` only if the scan did not end within the reads allowed to
it, one more than the input has bytes. -/
def Run (u : Unicode) (m : Main) (args : List String) : Option (Option Error × Main) :=
  -- Parse command line flags.
  let fs := flag.Parse args
  let m := { m with Stderr := m.Stderr ++ fs.output }
  match fs.err with
  | some err => some (some err, m)
  | none =>
    -- Validate flags.
    if fs.args.length > 1 then
      some (some (Error.msg "too many files specified"), m)
    else
      -- Determine if stdin or a CLI arg should be used as input.
      match Reader m (flag.Arg fs.args 0) with
      | (.error err, m) => some (some err, m)
      | (.ok r, m) =>
        -- Read each rune and calculate stats.
        match Stat m u bufioReader (r.src.data.length + 1) (bufio.NewReader r.src) with
        | none => none
        | some res =>
          let m := release m r.handle res.reader
          match res.err with
          | some err => some (some err, m)
          | none =>
            -- Print stats to terminal.
            some (none, { m with Stdout := m.Stdout ++ report res.stats })

/-! ## Auxiliary definitions for the statements -/

/-- The error `Stat` returns when a read reports `e`: `nil` for `io.EOF`, else `e`. -/
def statErr (e : Error) : Option Error :=
  match e with
  | Error.EOF => none
  | e => some e

/-- The counters after the body of the loop has run, from `stats`, for each result of
`xs` in turn. -/
def tally (u : Unicode) (stats : Stats) (xs : List ReadResult) : Stats :=
  xs.foldl (fun acc x => Stat.count u acc x.ch x.sz) stats

/-- An example stream: `A`, `é` in two bytes, U+4E2D in three bytes, a space, then a
read error, and one more rune that is never reached. -/
def brokenStream : List ReadResult :=
  [ok 0x41 1, ok 0xE9 2, ok 0x4E2D 3, ok 0x20 1, ⟨0, 0, some (Error.msg "unexpected EOF")⟩,
    ok 0x42 1]

/-- An example stream that ends regularly: `A`, `1`, a space, `é` in two bytes. -/
def plainStream : List ReadResult :=
  [ok 0x41 1, ok 0x31 1, ok 0x20 1, ok 0xE9 2]

/-- An example file system: a text file, a directory (it opens, but reading it fails),
and no other name. -/
def demoOpen (name : String) : Except Error ByteSource :=
  if name = "a.txt" then .ok ⟨[0x41, 0x31, 0x20, 0xC3, 0xA9], Error.EOF⟩
  else if name = "dir" then .ok ⟨[], Error.msg "read dir: is a directory"⟩
  else .error (Error.msg ("open " ++ name ++ ": no such file or directory"))

/-- An example process: standard input holds `a`, the byte `0xFF` (which is part of no
UTF-8 encoding) and `b`. -/
def demo : Main := { Stdin := ⟨[0x61, 0xFF, 0x62], Error.EOF⟩, Open := demoOpen }

/-- The parts of the state after `Run` that can be compared: the error returned,
standard output, the files opened, the reads of standard input and what is left of it. -/
def observe (r : Option (Option Error × Main)) :
    Option (Option Error × String × List String × Nat × ByteSource) :=
  r.map fun x => (x.1, x.2.Stdout, x.2.opened, x.2.stdinReads, x.2.Stdin)

/-- A counter line of the report without its newline. -/
def counterLine (label : String) (n : Nat) : String :=
  fmt.padRight 10 label ++ " " ++ toString n

/-- The lines of the report as the specification lists them, each without its newline. -/
def reportLines (stats : Stats) : List String :=
  [counterLine "Control:" stats.ControlN,
    counterLine "Digit:" stats.DigitN,
    counterLine "Graphic:" stats.GraphicN,
    counterLine "Letter:" stats.LetterN,
    counterLine "Lower:" stats.LowerN,
    counterLine "Mark:" stats.MarkN,
    counterLine "Number:" stats.NumberN,
    counterLine "Print:" stats.PrintN,
    counterLine "Punct:" stats.PunctN,
    counterLine "Space:" stats.SpaceN,
    counterLine "Symbol:" stats.SymbolN,
    counterLine "Title:" stats.TitleN,
    counterLine "Upper:" stats.UpperN,
    "",
    counterLine "Multibyte:" stats.MultiByteN,
    "",
    counterLine "Total:" stats.TotalN,
    ""]

/-- The text made of the given lines, each ended by a newline. -/
def unlines (ls : List String) : String :=
  String.join (ls.map fun l => l ++ "\n")

/-- The field-by-field sum of two `Stats`. -/
def Stats.add (a b : Stats) : Stats where
  TotalN := a.TotalN + b.TotalN
  ControlN := a.ControlN + b.ControlN
  DigitN := a.DigitN + b.DigitN
  GraphicN := a.GraphicN + b.GraphicN
  LetterN := a.LetterN + b.LetterN
  LowerN := a.LowerN + b.LowerN
  MarkN := a.MarkN + b.MarkN
  NumberN := a.NumberN + b.NumberN
  PrintN := a.PrintN + b.PrintN
  PunctN := a.PunctN + b.PunctN
  SpaceN := a.SpaceN + b.SpaceN
  SymbolN := a.SymbolN + b.SymbolN
  TitleN := a.TitleN + b.TitleN
  UpperN := a.UpperN + b.UpperN
  MultiByteN := a.MultiByteN + b.MultiByteN

/-- The bytes of the text `A1 é` in UTF-8. -/
def a1eBytes : List Byte := [0x41, 0x31, 0x20, 0xC3, 0xA9]

/-- An example stream: a single newline. -/
def newlineStream : List ReadResult := [ok 0x0A 1]

/-- An example stream: a single no-break space, U+00A0, in two bytes. -/
def nbspStream : List ReadResult := [ok 0xA0 2]

/-! # Lemmas

## The loop as a fold -/

theorem count_TotalN (u : Unicode) (st : Stats) (ch sz : Int) :
    (Stat.count u st ch sz).TotalN = st.TotalN + 1 := by
  simp only [Stat.count, apply_ite Stats.TotalN, ite_self]

theorem count_ControlN (u : Unicode) (st : Stats) (ch sz : Int) :
    (Stat.count u st ch sz).ControlN = st.ControlN + (if u.IsControl ch then 1 else 0) := by
  simp only [Stat.count, apply_ite Stats.ControlN, ite_self]
  split <;> rfl

theorem count_DigitN (u : Unicode) (st : Stats) (ch sz : Int) :
    (Stat.count u st ch sz).DigitN = st.DigitN + (if u.IsDigit ch then 1 else 0) := by
  simp only [Stat.count, apply_ite Stats.DigitN, ite_self]
  split <;> rfl

theorem count_GraphicN (u : Unicode) (st : Stats) (ch sz : Int) :
    (Stat.count u st ch sz).GraphicN = st.GraphicN + (if u.IsGraphic ch then 1 else 0) := by
  simp only [Stat.count, apply_ite Stats.GraphicN, ite_self]
  split <;> rfl

theorem count_LetterN (u : Unicode) (st : Stats) (ch sz : Int) :
    (Stat.count u st ch sz).LetterN = st.LetterN + (if u.IsLetter ch then 1 else 0) := by
  simp only [Stat.count, apply_ite Stats.LetterN, ite_self]
  split <;> rfl

theorem count_LowerN (u : Unicode) (st : Stats) (ch sz : Int) :
    (Stat.count u st ch sz).LowerN = st.LowerN + (if u.IsLower ch then 1 else 0) := by
  simp only [Stat.count, apply_ite Stats.LowerN, ite_self]
  split <;> rfl

theorem count_MarkN (u : Unicode) (st : Stats) (ch sz : Int) :
    (Stat.count u st ch sz).MarkN = st.MarkN + (if u.IsMark ch then 1 else 0) := by
  simp only [Stat.count, apply_ite Stats.MarkN, ite_self]
  split <;> rfl

theorem count_NumberN (u : Unicode) (st : Stats) (ch sz : Int) :
    (Stat.count u st ch sz).NumberN = st.NumberN + (if u.IsNumber ch then 1 else 0) := by
  simp only [Stat.count, apply_ite Stats.NumberN, ite_self]
  split <;> rfl

theorem count_PrintN (u : Unicode) (st : Stats) (ch sz : Int) :
    (Stat.count u st ch sz).PrintN = st.PrintN + (if u.IsPrint ch then 1 else 0) := by
  simp only [Stat.count, apply_ite Stats.PrintN, ite_self]
  split <;> rfl

theorem count_PunctN (u : Unicode) (st : Stats) (ch sz : Int) :
    (Stat.count u st ch sz).PunctN = st.PunctN + (if u.IsPunct ch then 1 else 0) := by
  simp only [Stat.count, apply_ite Stats.PunctN, ite_self]
  split <;> rfl

theorem count_SpaceN (u : Unicode) (st : Stats) (ch sz : Int) :
    (Stat.count u st ch sz).SpaceN = st.SpaceN + (if u.IsSpace ch then 1 else 0) := by
  simp only [Stat.count, apply_ite Stats.SpaceN, ite_self]
  split <;> rfl

theorem count_SymbolN (u : Unicode) (st : Stats) (ch sz : Int) :
    (Stat.count u st ch sz).SymbolN = st.SymbolN + (if u.IsSymbol ch then 1 else 0) := by
  simp only [Stat.count, apply_ite Stats.SymbolN, ite_self]
  split <;> rfl

theorem count_TitleN (u : Unicode) (st : Stats) (ch sz : Int) :
    (Stat.count u st ch sz).TitleN = st.TitleN + (if u.IsTitle ch then 1 else 0) := by
  simp only [Stat.count, apply_ite Stats.TitleN, ite_self]
  split <;> rfl

theorem count_UpperN (u : Unicode) (st : Stats) (ch sz : Int) :
    (Stat.count u st ch sz).UpperN = st.UpperN + (if u.IsUpper ch then 1 else 0) := by
  simp only [Stat.count, apply_ite Stats.UpperN, ite_self]
  split <;> rfl

theorem count_MultiByteN (u : Unicode) (st : Stats) (ch sz : Int) :
    (Stat.count u st ch sz).MultiByteN = st.MultiByteN + (if sz > 1 then 1 else 0) := by
  simp only [Stat.count, apply_ite Stats.MultiByteN, ite_self]
  split <;> rfl

theorem tally_nil (u : Unicode) (st : Stats) : tally u st [] = st := rfl

theorem tally_cons (u : Unicode) (st : Stats) (x : ReadResult) (xs : List ReadResult) :
    tally u st (x :: xs) = tally u (Stat.count u st x.ch x.sz) xs := rfl

theorem tally_TotalN (u : Unicode) (xs : List ReadResult) :
    ∀ st, (tally u st xs).TotalN = st.TotalN + xs.length := by
  induction xs with
  | nil => intro st; simp [tally_nil]
  | cons x xs ih =>
    intro st
    rw [tally_cons, ih, count_TotalN, List.length_cons]
    omega

theorem tally_ControlN (u : Unicode) (xs : List ReadResult) :
    ∀ st, (tally u st xs).ControlN = st.ControlN + xs.countP (fun x => u.IsControl x.ch) := by
  induction xs with
  | nil => intro st; simp [tally_nil]
  | cons x xs ih =>
    intro st
    rw [tally_cons, ih, count_ControlN, List.countP_cons]
    omega

theorem tally_DigitN (u : Unicode) (xs : List ReadResult) :
    ∀ st, (tally u st xs).DigitN = st.DigitN + xs.countP (fun x => u.IsDigit x.ch) := by
  induction xs with
  | nil => intro st; simp [tally_nil]
  | cons x xs ih =>
    intro st
    rw [tally_cons, ih, count_DigitN, List.countP_cons]
    omega

theorem tally_GraphicN (u : Unicode) (xs : List ReadResult) :
    ∀ st, (tally u st xs).GraphicN = st.GraphicN + xs.countP (fun x => u.IsGraphic x.ch) := by
  induction xs with
  | nil => intro st; simp [tally_nil]
  | cons x xs ih =>
    intro st
    rw [tally_cons, ih, count_GraphicN, List.countP_cons]
    omega

theorem tally_LetterN (u : Unicode) (xs : List ReadResult) :
    ∀ st, (tally u st xs).LetterN = st.LetterN + xs.countP (fun x => u.IsLetter x.ch) := by
  induction xs with
  | nil => intro st; simp [tally_nil]
  | cons x xs ih =>
    intro st
    rw [tally_cons, ih, count_LetterN, List.countP_cons]
    omega

theorem tally_LowerN (u : Unicode) (xs : List ReadResult) :
    ∀ st, (tally u st xs).LowerN = st.LowerN + xs.countP (fun x => u.IsLower x.ch) := by
  induction xs with
  | nil => intro st; simp [tally_nil]
  | cons x xs ih =>
    intro st
    rw [tally_cons, ih, count_LowerN, List.countP_cons]
    omega

theorem tally_MarkN (u : Unicode) (xs : List ReadResult) :
    ∀ st, (tally u st xs).MarkN = st.MarkN + xs.countP (fun x => u.IsMark x.ch) := by
  induction xs with
  | nil => intro st; simp [tally_nil]
  | cons x xs ih =>
    intro st
    rw [tally_cons, ih, count_MarkN, List.countP_cons]
    omega

theorem tally_NumberN (u : Unicode) (xs : List ReadResult) :
    ∀ st, (tally u st xs).NumberN = st.NumberN + xs.countP (fun x => u.IsNumber x.ch) := by
  induction xs with
  | nil => intro st; simp [tally_nil]
  | cons x xs ih =>
    intro st
    rw [tally_cons, ih, count_NumberN, List.countP_cons]
    omega

theorem tally_PrintN (u : Unicode) (xs : List ReadResult) :
    ∀ st, (tally u st xs).PrintN = st.PrintN + xs.countP (fun x => u.IsPrint x.ch) := by
  induction xs with
  | nil => intro st; simp [tally_nil]
  | cons x xs ih =>
    intro st
    rw [tally_cons, ih, count_PrintN, List.countP_cons]
    omega

theorem tally_PunctN (u : Unicode) (xs : List ReadResult) :
    ∀ st, (tally u st xs).PunctN = st.PunctN + xs.countP (fun x => u.IsPunct x.ch) := by
  induction xs with
  | nil => intro st; simp [tally_nil]
  | cons x xs ih =>
    intro st
    rw [tally_cons, ih, count_PunctN, List.countP_cons]
    omega

theorem tally_SpaceN (u : Unicode) (xs : List ReadResult) :
    ∀ st, (tally u st xs).SpaceN = st.SpaceN + xs.countP (fun x => u.IsSpace x.ch) := by
  induction xs with
  | nil => intro st; simp [tally_nil]
  | cons x xs ih =>
    intro st
    rw [tally_cons, ih, count_SpaceN, List.countP_cons]
    omega

theorem tally_SymbolN (u : Unicode) (xs : List ReadResult) :
    ∀ st, (tally u st xs).SymbolN = st.SymbolN + xs.countP (fun x => u.IsSymbol x.ch) := by
  induction xs with
  | nil => intro st; simp [tally_nil]
  | cons x xs ih =>
    intro st
    rw [tally_cons, ih, count_SymbolN, List.countP_cons]
    omega

theorem tally_TitleN (u : Unicode) (xs : List ReadResult) :
    ∀ st, (tally u st xs).TitleN = st.TitleN + xs.countP (fun x => u.IsTitle x.ch) := by
  induction xs with
  | nil => intro st; simp [tally_nil]
  | cons x xs ih =>
    intro st
    rw [tally_cons, ih, count_TitleN, List.countP_cons]
    omega

theorem tally_UpperN (u : Unicode) (xs : List ReadResult) :
    ∀ st, (tally u st xs).UpperN = st.UpperN + xs.countP (fun x => u.IsUpper x.ch) := by
  induction xs with
  | nil => intro st; simp [tally_nil]
  | cons x xs ih =>
    intro st
    rw [tally_cons, ih, count_UpperN, List.countP_cons]
    omega

theorem tally_MultiByteN (u : Unicode) (xs : List ReadResult) :
    ∀ st, (tally u st xs).MultiByteN
      = st.MultiByteN + xs.countP (fun x => decide (x.sz > 1)) := by
  induction xs with
  | nil => intro st; simp [tally_nil]
  | cons x xs ih =>
    intro st
    rw [tally_cons, ih, count_MultiByteN, List.countP_cons]
    by_cases h : x.sz > 1 <;> simp [h]; omega

/-! ## The loop on a stream that ends -/

theorem loop_stop {σ : Type} (u : Unicode) (r : RuneReader σ) (fuel : Nat) (s : σ)
    (st : Stats) (e : Error) (h : (r.ReadRune s).1.err = some e) :
    Stat.loop u r (fuel + 1) s st = some ⟨st, statErr e, (r.ReadRune s).2⟩ := by
  rcases hr : r.ReadRune s with ⟨⟨ch, sz, err⟩, s'⟩
  rw [hr] at h
  simp only at h
  subst h
  cases e <;> simp [Stat.loop, hr, statErr]

theorem loop_next {σ : Type} (u : Unicode) (r : RuneReader σ) (fuel : Nat) (s : σ)
    (st : Stats) (h : (r.ReadRune s).1.err = none) :
    Stat.loop u r (fuel + 1) s st
      = Stat.loop u r fuel (r.ReadRune s).2
          (Stat.count u st (r.ReadRune s).1.ch (r.ReadRune s).1.sz) := by
  rcases hr : r.ReadRune s with ⟨⟨ch, sz, err⟩, s'⟩
  rw [hr] at h
  simp only at h
  subst h
  simp [Stat.loop, hr]

/-- On a stream whose first `k` reads succeed and whose next read reports `e`, the loop
returns once it may make more than `k` reads: the counters are those of the `k`
results, and the reader has made `k + 1` reads. -/
theorem loop_spec {σ : Type} (u : Unicode) (r : RuneReader σ) (e : Error) :
    ∀ (k fuel : Nat) (s : σ) (st : Stats), k < fuel →
      (∀ x ∈ r.reads k s, x.err = none) →
      (r.ReadRune (r.advance k s)).1.err = some e →
      Stat.loop u r fuel s st
        = some ⟨tally u st (r.reads k s), statErr e, r.advance (k + 1) s⟩ := by
  intro k
  induction k with
  | zero =>
    intro fuel s st hf _ hend
    obtain ⟨f, rfl⟩ : ∃ f, fuel = f + 1 := ⟨fuel - 1, by omega⟩
    simpa [RuneReader.reads, RuneReader.advance, tally_nil] using
      loop_stop u r f s st e hend
  | succ k ih =>
    intro fuel s st hf hok hend
    obtain ⟨f, rfl⟩ : ∃ f, fuel = f + 1 := ⟨fuel - 1, by omega⟩
    have h0 : (r.ReadRune s).1.err = none := hok _ (by simp [RuneReader.reads])
    rw [loop_next u r f s st h0]
    rw [ih f (r.ReadRune s).2 _ (by omega)
      (fun x hx => hok x (by simp [RuneReader.reads, hx])) hend]
    simp [RuneReader.reads, RuneReader.advance, tally_cons]

/-- With too little fuel for a stream whose first `k` reads succeed, the loop does not
return. -/
theorem loop_none {σ : Type} (u : Unicode) (r : RuneReader σ) :
    ∀ (k fuel : Nat) (s : σ) (st : Stats), fuel ≤ k →
      (∀ x ∈ r.reads k s, x.err = none) → Stat.loop u r fuel s st = none := by
  intro k
  induction k with
  | zero =>
    intro fuel s st hf _
    obtain rfl : fuel = 0 := by omega
    rfl
  | succ k ih =>
    intro fuel s st hf hok
    cases fuel with
    | zero => rfl
    | succ f =>
      have h0 : (r.ReadRune s).1.err = none := hok _ (by simp [RuneReader.reads])
      rw [loop_next u r f s st h0]
      exact ih f _ _ (by omega) (fun x hx => hok x (by simp [RuneReader.reads, hx]))



theorem reads_length {σ : Type} (r : RuneReader σ) :
    ∀ (k : Nat) (s : σ), (r.reads k s).length = k := by
  intro k
  induction k with
  | zero => intro s; rfl
  | succ k ih => intro s; simp [RuneReader.reads, ih]

theorem sliceReader_ReadRune_cons (x : ReadResult) (xs : List ReadResult) :
    sliceReader.ReadRune (x :: xs) = (x, xs) := rfl

theorem sliceReader_ReadRune_nil :
    sliceReader.ReadRune [] = (⟨0, 0, some Error.EOF⟩, []) := rfl

theorem sliceReader_reads (xs : List ReadResult) :
    sliceReader.reads xs.length xs = xs := by
  induction xs with
  | nil => rfl
  | cons x xs ih =>
    simp only [List.length_cons, RuneReader.reads, sliceReader_ReadRune_cons, ih]

theorem sliceReader_advance (xs : List ReadResult) (n : Nat) (h : xs.length ≤ n) :
    sliceReader.advance n xs = [] := by
  induction n generalizing xs with
  | zero =>
    have : xs = [] := List.length_eq_zero.mp (by omega)
    subst this
    rfl
  | succ n ih =>
    cases xs with
    | nil =>
      simp only [RuneReader.advance, sliceReader_ReadRune_nil]
      exact ih [] (by simp)
    | cons x xs =>
      simp only [RuneReader.advance, sliceReader_ReadRune_cons]
      exact ih xs (by simpa using h)

/-! ## The scan through `bufio.Reader` -/

theorem DecodeRune_size (p0 : Byte) (rest : List Byte) :
    1 ≤ (utf8.DecodeRune (p0 :: rest)).2 ∧ (utf8.DecodeRune (p0 :: rest)).2 ≤ 4
      ∧ (utf8.DecodeRune (p0 :: rest)).2.toNat ≤ (p0 :: rest).length := by
  rcases rest with _ | ⟨b1, _ | ⟨b2, _ | ⟨b3, rest⟩⟩⟩ <;>
  · simp only [utf8.DecodeRune]
    split_ifs <;> simp

theorem ReadRune_cons (p0 : Byte) (rest : List Byte) (e : Error) (c : Nat) :
    ∃ r sz : Int, ∃ n : Nat, sz = n ∧ 1 ≤ n ∧ n ≤ 4 ∧ n ≤ (p0 :: rest).length
      ∧ bufio.ReadRune ⟨⟨p0 :: rest, e⟩, c⟩
        = (⟨r, sz, none⟩, ⟨⟨(p0 :: rest).drop n, e⟩, c + 1⟩) := by
  by_cases h : p0.val < 0x80
  · exact ⟨p0.val, 1, 1, rfl, by omega, by omega, by simp, by simp [bufio.ReadRune, h]⟩
  · obtain ⟨h1, h2, h3⟩ := DecodeRune_size p0 rest
    refine ⟨(utf8.DecodeRune (p0 :: rest)).1, (utf8.DecodeRune (p0 :: rest)).2,
      (utf8.DecodeRune (p0 :: rest)).2.toNat, by omega, by omega, by omega, h3, ?_⟩
    simp [bufio.ReadRune, h]


theorem bufioReader_ReadRune (b : bufio.Reader) :
    bufioReader.ReadRune b = bufio.ReadRune b := rfl

theorem ReadRune_nil (e : Error) (c : Nat) :
    bufio.ReadRune ⟨⟨[], e⟩, c⟩ = (⟨0, 0, some e⟩, ⟨⟨[], e⟩, c + 1⟩) := rfl

/-- The reader gets through any input: after some number `k` of successful reads, each
of one to four bytes, no byte is left. -/
theorem bufio_scan (e : Error) :
    ∀ (n : Nat) (data : List Byte) (c : Nat), data.length ≤ n →
      ∃ k, k ≤ data.length ∧ data.length ≤ 4 * k
        ∧ (∀ x ∈ bufioReader.reads k ⟨⟨data, e⟩, c⟩, x.err = none)
        ∧ ((bufioReader.reads k ⟨⟨data, e⟩, c⟩).map (fun x => x.sz)).sum = data.length
        ∧ bufioReader.advance k ⟨⟨data, e⟩, c⟩ = ⟨⟨[], e⟩, c + k⟩ := by
  intro n
  induction n with
  | zero =>
    intro data c h
    have hd : data = [] := List.length_eq_zero.mp (by omega)
    subst hd
    exact ⟨0, by simp, by simp, by simp [RuneReader.reads], by simp [RuneReader.reads],
      by simp [RuneReader.advance]⟩
  | succ n ih =>
    intro data c h
    cases data with
    | nil =>
      exact ⟨0, by simp, by simp, by simp [RuneReader.reads], by simp [RuneReader.reads],
        by simp [RuneReader.advance]⟩
    | cons p0 rest =>
      obtain ⟨r, sz, m, hsz, h1, h4, hlen, hread⟩ := ReadRune_cons p0 rest e c
      have hdrop : ((p0 :: rest).drop m).length = (p0 :: rest).length - m :=
        List.length_drop _ _
      obtain ⟨k, hk1, hk2, hk3, hk4, hk5⟩ :=
        ih ((p0 :: rest).drop m) (c + 1) (by rw [hdrop]; omega)
      refine ⟨k + 1, by omega, by omega, ?_, ?_, ?_⟩
      · intro x hx
        simp only [RuneReader.reads, bufioReader_ReadRune, hread, List.mem_cons] at hx
        rcases hx with rfl | hx
        · rfl
        · exact hk3 x hx
      · simp only [RuneReader.reads, bufioReader_ReadRune, hread, List.map_cons,
          List.sum_cons, hk4, hdrop, hsz]
        omega
      · simp only [RuneReader.advance, bufioReader_ReadRune, hread, hk5]
        congr 1
        omega

/-- `Stat` over a `bufio.Reader` returns within one read more than the input has bytes.
It returns the error of the byte source (`nil` for `io.EOF`) and none of its own, after
`k` characters that together take up every byte of the input. -/
theorem Stat_bufio (u : Unicode) (src : ByteSource) :
    ∃ k, k ≤ src.data.length ∧ src.data.length ≤ 4 * k
      ∧ (∀ x ∈ bufioReader.reads k (bufio.NewReader src), x.err = none)
      ∧ ((bufioReader.reads k (bufio.NewReader src)).map (fun x => x.sz)).sum
          = src.data.length
      ∧ ∀ m : Main, Stat m u bufioReader (src.data.length + 1) (bufio.NewReader src)
        = some ⟨tally u {} (bufioReader.reads k (bufio.NewReader src)), statErr src.err,
            ⟨⟨[], src.err⟩, k + 1⟩⟩ := by
  obtain ⟨data, e⟩ := src
  obtain ⟨k, hk1, hk2, hk3, hk4, hk5⟩ := bufio_scan e data.length data 0 (le_refl _)
  simp only [Nat.zero_add] at hk5
  refine ⟨k, hk1, hk2, hk3, hk4, fun m => ?_⟩
  have h := loop_spec u bufioReader e k (data.length + 1) (bufio.NewReader ⟨data, e⟩) {}
    (by omega) hk3 (by
      show (bufioReader.ReadRune (bufioReader.advance k ⟨⟨data, e⟩, 0⟩)).1.err = some e
      rw [hk5]; rfl)
  rw [Stat, h]
  have h2 : bufioReader.advance (k + 1) (bufio.NewReader ⟨data, e⟩) = ⟨⟨[], e⟩, k + 1⟩ := by
    have h3 : ∀ (j : Nat) (s : bufio.Reader),
        bufioReader.advance (j + 1) s = (bufioReader.ReadRune (bufioReader.advance j s)).2 := by
      intro j
      induction j with
      | zero => intro s; rfl
      | succ j ihj => intro s; exact ihj _
    rw [h3]
    show (bufioReader.ReadRune (bufioReader.advance k ⟨⟨data, e⟩, 0⟩)).2 = _
    rw [hk5]; rfl
  rw [h2]


/-! ## Run -/

theorem Reader_stdin (m : Main) :
    Reader m "" = (.ok ⟨Handle.stdin, m.Stdin⟩,
      { m with Stderr := m.Stderr ++ fmt.Sprintln "reading from stdin\n" }) := by
  simp [Reader]

theorem Reader_file (m : Main) (filename : String) (h : filename ≠ "") :
    Reader m filename
      = (match m.Open filename with
          | .error err => .error err
          | .ok f => .ok ⟨Handle.file filename, f⟩,
         { m with opened := m.opened ++ [filename] }) := by
  unfold Reader
  rw [if_neg h]
  simp only
  cases m.Open filename <;> rfl

theorem Reader_fields (m : Main) (filename : String) :
    (Reader m filename).2.Stdout = m.Stdout ∧ (Reader m filename).2.Stdin = m.Stdin
      ∧ (Reader m filename).2.stdinReads = m.stdinReads
      ∧ (Reader m filename).2.closed = m.closed
      ∧ (Reader m filename).2.Open = m.Open := by
  by_cases h : filename = ""
  · subst h
    rw [Reader_stdin]
    simp
  · rw [Reader_file m filename h]
    simp

/-- The steps of `Run` with the successive states of `m` written out. -/
theorem Run_eq (u : Unicode) (m : Main) (args : List String) :
    Run u m args =
      match (flag.Parse args).err with
      | some err => some (some err, { m with Stderr := m.Stderr ++ (flag.Parse args).output })
      | none =>
        if (flag.Parse args).args.length > 1 then
          some (some (Error.msg "too many files specified"),
            { m with Stderr := m.Stderr ++ (flag.Parse args).output })
        else
          match Reader { m with Stderr := m.Stderr ++ (flag.Parse args).output }
              (flag.Arg (flag.Parse args).args 0) with
          | (.error err, m1) => some (some err, m1)
          | (.ok r, m1) =>
            match Stat m1 u bufioReader (r.src.data.length + 1) (bufio.NewReader r.src) with
            | none => none
            | some res =>
              match res.err with
              | some err => some (some err, release m1 r.handle res.reader)
              | none =>
                some (none, { release m1 r.handle res.reader with
                  Stdout := (release m1 r.handle res.reader).Stdout ++ report res.stats }) := by
  rfl

theorem release_fields (m : Main) (h : Handle) (b : bufio.Reader) :
    (release m h b).Stdout = m.Stdout ∧ (release m h b).Stderr = m.Stderr
      ∧ (release m h b).opened = m.opened := by
  cases h <;> simp [release]

theorem digitChar_ne_newline (n : Nat) : Nat.digitChar (n % 10) ≠ '\n' := by
  have h : ∀ m, m < 10 → Nat.digitChar m ≠ '\n' := by decide
  exact h _ (Nat.mod_lt _ (by decide))

theorem toDigitsCore_no_newline (fuel : Nat) :
    ∀ (n : Nat) (acc : List Char), '\n' ∉ acc → '\n' ∉ Nat.toDigitsCore 10 fuel n acc := by
  induction fuel with
  | zero => intro n acc h; simpa [Nat.toDigitsCore] using h
  | succ fuel ih =>
    intro n acc h
    have hc : '\n' ∉ Nat.digitChar (n % 10) :: acc := by
      simp only [List.mem_cons, not_or]
      exact ⟨fun h' => digitChar_ne_newline _ h'.symm, h⟩
    unfold Nat.toDigitsCore
    simp only
    split
    · exact hc
    · exact ih _ _ hc

theorem toString_no_newline (n : Nat) : '\n' ∉ (toString n).data := by
  show '\n' ∉ (Nat.repr n).data
  simp only [Nat.repr, List.asString, Nat.toDigits]
  exact toDigitsCore_no_newline _ _ _ (by simp)

theorem counterLine_no_newline (label : String) (n : Nat) (h : '\n' ∉ label.data) :
    '\n' ∉ (counterLine label n).data := by
  have h2 := toString_no_newline n
  simp only [counterLine, fmt.padRight, String.data_append, List.mem_append, not_or]
  refine ⟨⟨⟨h, ?_⟩, by decide⟩, h2⟩
  intro h3
  have := List.eq_of_mem_replicate h3
  exact absurd this (by decide)

theorem count_newline_unlines (ls : List String) (h : ∀ l ∈ ls, '\n' ∉ l.data) :
    (unlines ls).data.count '\n' = ls.length := by
  have key : ∀ (ls : List String) (acc : String), (∀ l ∈ ls, '\n' ∉ l.data) →
      ((ls.map fun l => l ++ "\n").foldl (fun a b => a ++ b) acc).data.count '\n'
        = acc.data.count '\n' + ls.length := by
    intro ls
    induction ls with
    | nil => intro acc _; simp
    | cons l ls ih =>
      intro acc hl
      have h1 : '\n' ∉ l.data := hl l (by simp)
      simp only [List.map_cons, List.foldl_cons, List.length_cons]
      rw [ih _ (fun x hx => hl x (by simp [hx]))]
      simp only [String.data_append, List.count_append, List.count_eq_zero_of_not_mem h1]
      have : List.count '\n' ['\n'] = 1 := by decide
      omega
  have := key ls "" h
  simpa [unlines, String.join] using this

/-! ## Prefixes of a stream, sums of counters -/

theorem reads_add {σ : Type} (r : RuneReader σ) :
    ∀ (j i : Nat) (s : σ), r.reads (j + i) s = r.reads j s ++ r.reads i (r.advance j s) := by
  intro j
  induction j with
  | zero => intro i s; simp [RuneReader.reads, RuneReader.advance]
  | succ j ih =>
    intro i s
    have h : j + 1 + i = (j + i) + 1 := by omega
    rw [h]
    simp only [RuneReader.reads, RuneReader.advance, ih, List.cons_append]

theorem reads_succ_last {σ : Type} (r : RuneReader σ) (k : Nat) (s : σ) :
    r.reads (k + 1) s = r.reads k s ++ [(r.ReadRune (r.advance k s)).1] := by
  rw [reads_add r k 1 s]
  rfl

/-- `Stat` over a list of successful reads, followed by end-of-input. -/
theorem Stat_sliceReader (m : Main) (u : Unicode) (xs : List ReadResult) (fuel : Nat)
    (hok : ∀ x ∈ xs, x.err = none) (hfuel : xs.length < fuel) :
    Stat m u sliceReader fuel xs = some ⟨tally u {} xs, none, []⟩ := by
  have h := loop_spec u sliceReader Error.EOF xs.length fuel xs {} hfuel
    (by rw [sliceReader_reads]; exact hok)
    (by rw [sliceReader_advance _ _ (le_refl _)]; rfl)
  rw [sliceReader_reads, sliceReader_advance _ _ (by omega)] at h
  exact h

theorem Stats.ext_fields (a b : Stats)
    (h1 : a.TotalN = b.TotalN) (h2 : a.ControlN = b.ControlN) (h3 : a.DigitN = b.DigitN)
    (h4 : a.GraphicN = b.GraphicN) (h5 : a.LetterN = b.LetterN) (h6 : a.LowerN = b.LowerN)
    (h7 : a.MarkN = b.MarkN) (h8 : a.NumberN = b.NumberN) (h9 : a.PrintN = b.PrintN)
    (h10 : a.PunctN = b.PunctN) (h11 : a.SpaceN = b.SpaceN) (h12 : a.SymbolN = b.SymbolN)
    (h13 : a.TitleN = b.TitleN) (h14 : a.UpperN = b.UpperN)
    (h15 : a.MultiByteN = b.MultiByteN) : a = b := by
  cases a
  cases b
  simp_all

/-- The counters of a concatenation are the sums of the counters of its parts. -/
theorem tally_add (u : Unicode) (xs ys : List ReadResult) :
    tally u {} (xs ++ ys) = Stats.add (tally u {} xs) (tally u {} ys) := by
  apply Stats.ext_fields <;>
    simp only [Stats.add, tally_TotalN, tally_ControlN, tally_DigitN, tally_GraphicN,
      tally_LetterN, tally_LowerN, tally_MarkN, tally_NumberN, tally_PrintN, tally_PunctN,
      tally_SpaceN, tally_SymbolN, tally_TitleN, tally_UpperN, tally_MultiByteN,
      List.countP_append, List.length_append, Nat.zero_add]


/-! ## Relations between the predicates of package `unicode` -/

/-- C4: on every stream whose first `k` reads succeed and whose next read reports an
error `e` other than end-of-input, `Stat` returns that error `e`; the `Stats` it returns
are those `Stat` returns for the stream of the first `k` characters alone (followed by
end-of-input); and the reader is left in the state right after the failing read, its
`k + 1`-th: no further read is made. -/
theorem Stat_aborts_on_error {σ : Type} (m : Main) (u : Unicode) (r : RuneReader σ) (s : σ)
    (k fuel : Nat) (e : Error)
    (hok : ∀ x ∈ r.reads k s, x.err = none)
    (hend : (r.ReadRune (r.advance k s)).1.err = some e)
    (he : e ≠ Error.EOF)
    (hfuel : k < fuel) :
    ∃ stats, Stat m u r fuel s = some ⟨stats, some e, r.advance (k + 1) s⟩
      ∧ Stat m u sliceReader (k + 1) (r.reads k s) = some ⟨stats, none, []⟩ := by
  refine ⟨tally u {} (r.reads k s), ?_, ?_⟩
  · have h := loop_spec u r e k fuel s {} hfuel hok hend
    have h2 : statErr e = some e := by cases e <;> simp_all [statErr]
    rw [h2] at h
    exact h
  · have h1 := sliceReader_reads
    have h2 := sliceReader_advance
    have hl := reads_length r k s
    have h := loop_spec u sliceReader Error.EOF (r.reads k s).length (k + 1) (r.reads k s) {}
      (by omega) (by rw [h1]; exact hok)
      (by rw [h2 _ _ (le_refl _)]; rfl)
    rw [h1, h2 _ _ (by omega)] at h
    exact h

theorem Stat_aborts_on_error_witness :
    ∃ stats, Stat demo (unicode excerptTables) sliceReader 7 brokenStream
        = some ⟨stats, some (Error.msg "unexpected EOF"),
            sliceReader.advance (4 + 1) brokenStream⟩
      ∧ Stat demo (unicode excerptTables) sliceReader (4 + 1) (sliceReader.reads 4 brokenStream)
        = some ⟨stats, none, []⟩ :=
  Stat_aborts_on_error demo (unicode excerptTables) sliceReader brokenStream 4 7
    (Error.msg "unexpected EOF") (by decide) (by decide) (by decide) (by decide)

/-- C7: whatever the arguments and the input, `Run` returns, and whenever it returns an
error (from the flags, the number of arguments, the opening of the file or `Stat`)
standard output is what it was before: nothing of the report has been written. -/
theorem Run_error_writes_nothing (u : Unicode) (m : Main) (args : List String) :
    ∃ err m1, Run u m args = some (err, m1) ∧ (err ≠ none → m1.Stdout = m.Stdout) := by
  rw [Run_eq]
  split
  · exact ⟨_, _, rfl, fun _ => rfl⟩
  · split
    · exact ⟨_, _, rfl, fun _ => rfl⟩
    · split
      · next err m1 h =>
        refine ⟨_, _, rfl, fun _ => ?_⟩
        have := (Reader_fields { m with Stderr := m.Stderr ++ (flag.Parse args).output }
          (flag.Arg (flag.Parse args).args 0)).1
        rw [h] at this
        exact this
      · next r m1 h =>
        have hm1 : m1.Stdout = m.Stdout := by
          have := (Reader_fields { m with Stderr := m.Stderr ++ (flag.Parse args).output }
            (flag.Arg (flag.Parse args).args 0)).1
          rw [h] at this
          exact this
        obtain ⟨k, _, _, _, _, hstat⟩ := Stat_bufio u r.src
        rw [hstat m1]
        simp only
        split
        · exact ⟨_, _, rfl, fun _ => by rw [(release_fields _ _ _).1, hm1]⟩
        · exact ⟨_, _, rfl, fun hne => absurd rfl hne⟩


theorem Run_error_writes_nothing_witness :
    ∃ err m1, Run (unicode excerptTables) demo ["nope"] = some (err, m1)
      ∧ err ≠ none ∧ m1.Stdout = demo.Stdout := by
  obtain ⟨err, m1, h, himp⟩ :=
    Run_error_writes_nothing (unicode excerptTables) demo ["nope"]
  have hobs : observe (Run (unicode excerptTables) demo ["nope"])
      = some (some (Error.msg "open nope: no such file or directory"), "", ["nope"], 0,
          demo.Stdin) := by rfl
  rw [h] at hobs
  have herr : err ≠ none := by
    intro h0
    subst h0
    simp [observe] at hobs
  exact ⟨err, m1, h, herr, himp herr⟩

/-- C9, as the claim states it, fails on the count of lines: the report for the zero
`Stats` holds 18 newlines, and it is not made of 19 lines each ended by a newline. -/
theorem report_not_19_lines :
    (report {}).data.count '\n' = 18
      ∧ ¬ ∃ ls : List String, ls.length = 19 ∧ (∀ l ∈ ls, '\n' ∉ l.data)
          ∧ report {} = unlines ls := by
  have h18 : (report {}).data.count '\n' = 18 := by decide
  refine ⟨h18, ?_⟩
  rintro ⟨ls, hlen, hno, heq⟩
  have h := count_newline_unlines ls hno
  rw [← heq, h18, hlen] at h
  omega

/-- C9 (amended): for every `Stats` value the report is made of exactly these lines, each
ended by a newline, in this order: one line each for Control, Digit, Graphic, Letter,
Lower, Mark, Number, Print, Punct, Space, Symbol, Title, Upper (each with the matching
counter), a blank line, the Multibyte line, a blank line, the Total line, a blank line.
That is 18 lines in total and nothing else; no line has a newline inside. -/
theorem report_eq_lines (stats : Stats) :
    report stats = unlines (reportLines stats)
      ∧ (reportLines stats).length = 18
      ∧ (∀ l ∈ reportLines stats, '\n' ∉ l.data)
      ∧ (report stats).data.count '\n' = 18 := by
  have h1 : report stats = unlines (reportLines stats) := by
    simp [report, unlines, reportLines, String.join, counterLine, fmt.Sprintf, fmt.Sprintln,
      String.append_assoc]
  have h3 : ∀ l ∈ reportLines stats, '\n' ∉ l.data := by
    intro l hl
    simp only [reportLines, List.mem_cons, List.mem_singleton, List.not_mem_nil, or_false]
      at hl
    rcases hl with rfl | rfl | rfl | rfl | rfl | rfl | rfl | rfl | rfl | rfl | rfl | rfl
      | rfl | rfl | rfl | rfl | rfl | rfl
    all_goals first
      | exact counterLine_no_newline _ _ (by decide)
      | decide
  refine ⟨h1, rfl, h3, ?_⟩
  rw [h1, count_newline_unlines _ h3]
  rfl

/-- C11: on the empty input, where the first read reports end-of-input, `Stat` returns no
error and a `Stats` record in which all 15 counters, `TotalN` and `MultiByteN` included,
are zero. This holds for every reader whose first read reports `io.EOF`, and so for a
`bufio.Reader` over zero bytes. -/
theorem Stat_empty_input {σ : Type} (m : Main) (u : Unicode) (r : RuneReader σ) (s : σ)
    (fuel : Nat) (hend : (r.ReadRune s).1.err = some Error.EOF) (hfuel : 0 < fuel) :
    Stat m u r fuel s
        = some ⟨{ TotalN := 0, ControlN := 0, DigitN := 0, GraphicN := 0, LetterN := 0,
                  LowerN := 0, MarkN := 0, NumberN := 0, PrintN := 0, PunctN := 0,
                  SpaceN := 0, SymbolN := 0, TitleN := 0, UpperN := 0, MultiByteN := 0 },
                none, (r.ReadRune s).2⟩
      ∧ Stat m u bufioReader 1 (bufio.NewReader ⟨[], Error.EOF⟩)
        = some ⟨{ TotalN := 0, ControlN := 0, DigitN := 0, GraphicN := 0, LetterN := 0,
                  LowerN := 0, MarkN := 0, NumberN := 0, PrintN := 0, PunctN := 0,
                  SpaceN := 0, SymbolN := 0, TitleN := 0, UpperN := 0, MultiByteN := 0 },
                none, ⟨⟨[], Error.EOF⟩, 1⟩⟩ := by
  refine ⟨?_, rfl⟩
  have h := loop_spec u r Error.EOF 0 fuel s {} hfuel (by simp [RuneReader.reads]) hend
  simpa [Stat, RuneReader.reads, RuneReader.advance, tally_nil, statErr] using h

theorem Stat_empty_input_witness :
    Stat demo (unicode excerptTables) sliceReader 1 []
        = some ⟨{ TotalN := 0, ControlN := 0, DigitN := 0, GraphicN := 0, LetterN := 0,
                  LowerN := 0, MarkN := 0, NumberN := 0, PrintN := 0, PunctN := 0,
                  SpaceN := 0, SymbolN := 0, TitleN := 0, UpperN := 0, MultiByteN := 0 },
                none, (sliceReader.ReadRune []).2⟩
      ∧ Stat demo (unicode excerptTables) bufioReader 1 (bufio.NewReader ⟨[], Error.EOF⟩)
        = some ⟨{ TotalN := 0, ControlN := 0, DigitN := 0, GraphicN := 0, LetterN := 0,
                  LowerN := 0, MarkN := 0, NumberN := 0, PrintN := 0, PunctN := 0,
                  SpaceN := 0, SymbolN := 0, TitleN := 0, UpperN := 0, MultiByteN := 0 },
                none, ⟨⟨[], Error.EOF⟩, 1⟩⟩ :=
  Stat_empty_input demo (unicode excerptTables) sliceReader [] 1 (by decide) (by decide)

/-- C12: on the input `A1 é`, read as U+0041 of 1 byte, U+0031 of 1 byte, U+0020 of 1 byte
and U+00E9 of 2 bytes (which is how a `bufio.Reader` reads its UTF-8 bytes), `Stat`
returns without error, with LetterN = 2, DigitN = 1, SpaceN = 1, UpperN = 1, LowerN = 1,
MultiByteN = 1, TotalN = 4, PunctN = 0 and SymbolN = 0, whatever the range tables above
Latin-1 are. -/
theorem Stat_A1_e_acute (m : Main) (t : unicode.RangeTables) :
    bufioReader.reads 4 (bufio.NewReader ⟨a1eBytes, Error.EOF⟩) = plainStream
      ∧ ∃ res, Stat m (unicode t) sliceReader 5 plainStream = some res
        ∧ Stat m (unicode t) bufioReader 6 (bufio.NewReader ⟨a1eBytes, Error.EOF⟩)
            = some ⟨res.stats, none, ⟨⟨[], Error.EOF⟩, 5⟩⟩
        ∧ res.err = none
        ∧ res.stats.LetterN = 2 ∧ res.stats.DigitN = 1 ∧ res.stats.SpaceN = 1
        ∧ res.stats.UpperN = 1 ∧ res.stats.LowerN = 1 ∧ res.stats.MultiByteN = 1
        ∧ res.stats.TotalN = 4 ∧ res.stats.PunctN = 0 ∧ res.stats.SymbolN = 0 := by
  refine ⟨by decide,
    ⟨{ TotalN := 4, ControlN := 0, DigitN := 1, GraphicN := 4, LetterN := 2, LowerN := 1,
       MarkN := 0, NumberN := 1, PrintN := 4, PunctN := 0, SpaceN := 1, SymbolN := 0,
       TitleN := 0, UpperN := 1, MultiByteN := 1 }, none, []⟩,
    rfl, rfl, rfl, rfl, rfl, rfl, rfl, rfl, rfl, rfl, rfl, rfl⟩

/-- C13: on the input that is a single newline, U+000A of 1 byte, `Stat` returns without
error, with TotalN = 1, SpaceN = 1, ControlN = 1 and every other counter 0, whatever the
range tables above Latin-1 are. -/
theorem Stat_newline (m : Main) (t : unicode.RangeTables) :
    bufioReader.reads 1 (bufio.NewReader ⟨[0x0A], Error.EOF⟩) = newlineStream
      ∧ Stat m (unicode t) sliceReader 2 newlineStream
        = some ⟨{ TotalN := 1, ControlN := 1, DigitN := 0, GraphicN := 0, LetterN := 0,
                  LowerN := 0, MarkN := 0, NumberN := 0, PrintN := 0, PunctN := 0,
                  SpaceN := 1, SymbolN := 0, TitleN := 0, UpperN := 0, MultiByteN := 0 },
                none, []⟩
      ∧ Stat m (unicode t) bufioReader 2 (bufio.NewReader ⟨[0x0A], Error.EOF⟩)
        = some ⟨{ TotalN := 1, ControlN := 1, DigitN := 0, GraphicN := 0, LetterN := 0,
                  LowerN := 0, MarkN := 0, NumberN := 0, PrintN := 0, PunctN := 0,
                  SpaceN := 1, SymbolN := 0, TitleN := 0, UpperN := 0, MultiByteN := 0 },
                none, ⟨⟨[], Error.EOF⟩, 2⟩⟩ := by
  refine ⟨by decide, rfl, rfl⟩

/-- C14: two runs of `Stat` over identical sequences of read results (the same `k`
characters with the same sizes, and the same end-of-input or error at read `k + 1`),
from any two readers, on any two `Main` values and with any two allowances of reads
above `k`, both return, with identical `Stats` and identical errors. -/
theorem Stat_deterministic {σ₁ σ₂ : Type} (m₁ m₂ : Main) (u : Unicode)
    (r₁ : RuneReader σ₁) (r₂ : RuneReader σ₂) (s₁ : σ₁) (s₂ : σ₂)
    (k fuel₁ fuel₂ : Nat) (e : Error)
    (hsame : r₁.reads (k + 1) s₁ = r₂.reads (k + 1) s₂)
    (hok : ∀ x ∈ r₁.reads k s₁, x.err = none)
    (hend : (r₁.ReadRune (r₁.advance k s₁)).1.err = some e)
    (hfuel₁ : k < fuel₁) (hfuel₂ : k < fuel₂) :
    ∃ stats err,
      Stat m₁ u r₁ fuel₁ s₁ = some ⟨stats, err, r₁.advance (k + 1) s₁⟩
        ∧ Stat m₂ u r₂ fuel₂ s₂ = some ⟨stats, err, r₂.advance (k + 1) s₂⟩ := by
  rw [reads_succ_last, reads_succ_last] at hsame
  obtain ⟨hpre, hlast⟩ := List.append_inj hsame (by rw [reads_length, reads_length])
  have hlast2 : (r₁.ReadRune (r₁.advance k s₁)).1 = (r₂.ReadRune (r₂.advance k s₂)).1 := by
    simpa using hlast
  refine ⟨tally u {} (r₁.reads k s₁), statErr e,
    loop_spec u r₁ e k fuel₁ s₁ {} hfuel₁ hok hend, ?_⟩
  rw [hpre]
  exact loop_spec u r₂ e k fuel₂ s₂ {} hfuel₂ (by rw [← hpre]; exact hok)
    (by rw [← hlast2]; exact hend)

theorem Stat_deterministic_witness :
    ∃ stats err,
      Stat demo (unicode excerptTables) sliceReader 5 plainStream
          = some ⟨stats, err, sliceReader.advance (4 + 1) plainStream⟩
        ∧ Stat { demo with Stdout := "earlier output" } (unicode excerptTables) bufioReader 9
            (bufio.NewReader ⟨a1eBytes, Error.EOF⟩)
          = some ⟨stats, err,
              bufioReader.advance (4 + 1) (bufio.NewReader ⟨a1eBytes, Error.EOF⟩)⟩ :=
  Stat_deterministic demo { demo with Stdout := "earlier output" } (unicode excerptTables)
    sliceReader bufioReader plainStream (bufio.NewReader ⟨a1eBytes, Error.EOF⟩) 4 5 9
    Error.EOF (by decide) (by decide) (by decide) (by decide) (by decide)

/-- C18: `Stat` is additive over concatenation. For every two sequences `xs` and `ys` of
successful reads (each followed by end-of-input), `Stat` returns without error on `xs`,
on `ys` and on `xs ++ ys`, and the `Stats` of `xs ++ ys` is the field-by-field sum of the
`Stats` of `xs` and of `ys`, for all 15 counters. The `Stats` of the empty input is all
zeros, and adding it on either side changes nothing. -/
theorem Stat_additive (m : Main) (u : Unicode) (xs ys : List ReadResult)
    (hxs : ∀ x ∈ xs, x.err = none) (hys : ∀ y ∈ ys, y.err = none) :
    ∃ a b,
      Stat m u sliceReader (xs.length + 1) xs = some ⟨a, none, []⟩
        ∧ Stat m u sliceReader (ys.length + 1) ys = some ⟨b, none, []⟩
        ∧ Stat m u sliceReader ((xs ++ ys).length + 1) (xs ++ ys)
            = some ⟨Stats.add a b, none, []⟩
        ∧ Stat m u sliceReader 1 [] = some ⟨{}, none, []⟩
        ∧ Stats.add {} a = a ∧ Stats.add a {} = a := by
  refine ⟨tally u {} xs, tally u {} ys,
    Stat_sliceReader m u xs _ hxs (by omega),
    Stat_sliceReader m u ys _ hys (by omega), ?_, rfl, ?_, ?_⟩
  · rw [← tally_add]
    exact Stat_sliceReader m u (xs ++ ys) _
      (fun x hx => (List.mem_append.mp hx).elim (hxs x) (hys x)) (by omega)
  · apply Stats.ext_fields <;> simp [Stats.add]
  · apply Stats.ext_fields <;> simp [Stats.add]

theorem Stat_additive_witness :
    ∃ a b,
      Stat demo (unicode excerptTables) sliceReader (plainStream.length + 1) plainStream
          = some ⟨a, none, []⟩
        ∧ Stat demo (unicode excerptTables) sliceReader (nbspStream.length + 1) nbspStream
          = some ⟨b, none, []⟩
        ∧ Stat demo (unicode excerptTables) sliceReader
            ((plainStream ++ nbspStream).length + 1) (plainStream ++ nbspStream)
            = some ⟨Stats.add a b, none, []⟩
        ∧ Stat demo (unicode excerptTables) sliceReader 1 [] = some ⟨{}, none, []⟩
        ∧ Stats.add {} a = a ∧ Stats.add a {} = a :=
  Stat_additive demo (unicode excerptTables) plainStream nbspStream (by decide) (by decide)

end Unistat
